import Mathlib

/-!
Verification of the git-town ship command (`src/cmd/ship.go`) and of the
step-based workflow execution engine it drives.

The ship command itself (`shipCmd`, `checkShipPreconditions`,
`ensureParentBranchIsMainBranch`, `getShipStepList`) is embedded directly
from the Go source.  The generic engine (the `steps` package: `StepList`
mechanics, `Wrap`, the runner `steps.Run`, run-state persistence) is not part
of the provided source tree; those definitions are modelled from the
specification and carry doc comments saying so.

Repository queries performed by the Go code through the `git` package are
modelled by a record of pure functions (`GitEnv`): each field is the value the
corresponding `git` accessor would return during the invocation.
-/

namespace GitTown

/-- The closed set of step variants.  The first eleven constructors are the
variants the ship command emits (names taken from the Go source).  The last
five are engine-level steps: the four setup/teardown steps inserted by `Wrap`
and `ResetRemoteBranchStep`, the "push of the pre-push ref" used as the
inverse of an undoable push (spec 4.1). -/
inductive Step where
  | CheckoutBranchStep (BranchName : String)
  | MergeTrackingBranchStep
  | MergeBranchStep (BranchName : String)
  | EnsureHasShippableChangesStep (BranchName : String)
  | SquashMergeBranchStep (BranchName : String) (CommitMessage : String)
  | PushBranchStep (BranchName : String) (Undoable : Bool)
  | DeleteRemoteBranchStep (BranchName : String) (IsTracking : Bool)
  | DeleteLocalBranchStep (BranchName : String)
  | DeleteParentBranchStep (BranchName : String)
  | SetParentBranchStep (BranchName : String) (ParentBranchName : String)
  | DeleteAncestorBranchesStep
  | StashOpenChangesStep
  | RestoreOpenChangesStep
  | ChangeToGitRootStep
  | RestoreDirectoryStep
  | ResetRemoteBranchStep (BranchName : String) (Sha : String)
deriving DecidableEq, Repr

/-- Modelled from the spec: an ordered, mutable sequence of Steps (spec 3);
the `steps` package that defines it is not in the provided source. -/
structure StepList where
  steps : List Step := []
deriving DecidableEq, Repr

/-- Modelled from the spec: `append(step)` adds a step at the tail. -/
def StepList.Append (l : StepList) (s : Step) : StepList :=
  ⟨l.steps ++ [s]⟩

/-- Modelled from the spec: `prepend(step)` adds a step at the head. -/
def StepList.Prepend (l : StepList) (s : Step) : StepList :=
  ⟨s :: l.steps⟩

/-- Modelled from the spec: `append-list(other)` splices another list at the
tail. -/
def StepList.AppendList (l : StepList) (other : StepList) : StepList :=
  ⟨l.steps ++ other.steps⟩

/-- Modelled from the spec: options of the `wrap` operation (spec 4.2). -/
structure WrapOptions where
  RunInGitRoot : Bool
  StashOpenChanges : Bool
deriving DecidableEq, Repr

/-- Modelled from the spec: the setup steps `wrap` inserts at the head:
a change-directory step when running in the repository root, a stash-save
step when stashing open changes (spec 4.2). -/
def wrapSetupSteps (o : WrapOptions) : List Step :=
  (if o.RunInGitRoot then [Step.ChangeToGitRootStep] else []) ++
    (if o.StashOpenChanges then [Step.StashOpenChangesStep] else [])

/-- Modelled from the spec: the teardown steps `wrap` inserts at the tail:
a stash-pop step when stashing open changes, a restore-directory step when
running in the repository root (spec 4.2). -/
def wrapTeardownSteps (o : WrapOptions) : List Step :=
  (if o.StashOpenChanges then [Step.RestoreOpenChangesStep] else []) ++
    (if o.RunInGitRoot then [Step.RestoreDirectoryStep] else [])

/-- Modelled from the spec: `wrap` brackets the whole list with setup steps at
the head and teardown steps at the tail (spec 3, 4.2). -/
def StepList.Wrap (l : StepList) (o : WrapOptions) : StepList :=
  ⟨wrapSetupSteps o ++ l.steps ++ wrapTeardownSteps o⟩

/-- The repository queries the ship command makes through the `git` package,
plus `GetSyncBranchSteps` from the `steps` package (whose body is not in the
provided source; spec 8 calls its result "the sync steps for main", so it is
kept abstract as an environment-supplied list).  Each field holds the value
the accessor returns during this invocation. -/
structure GitEnv where
  IsOffline : Bool
  GetMainBranch : String
  HasRemote : String → Bool
  GetChildBranches : String → List String
  HasTrackingBranch : String → Bool
  GetParentBranch : String → String
  GetAncestorBranches : String → List String
  GetCurrentBranchName : String
  HasOpenChanges : Bool
  HasBranch : String → Bool
  IsFeatureBranch : String → Bool
  GetSyncBranchSteps : String → List Step

/-- The ship configuration.  The Go struct declares `BranchToShip`,
`InitialBranch` and `IsTargetBranchLocal` only; `getShipStepList`
nevertheless reads `config.TargetBranch` (ship.go lines 111-112), a field the
struct does not declare, so the Go file does not compile as written.  We add
`TargetBranch` as a fourth field so that read is expressible;
`checkShipPreconditions` never assigns it (nor `IsTargetBranchLocal`), so in
a real invocation both keep their zero values (`""` and `false`). -/
structure shipConfig where
  BranchToShip : String
  InitialBranch : String
  IsTargetBranchLocal : Bool
  TargetBranch : String
deriving DecidableEq, Repr

/-- Outcome of `ensureParentBranchIsMainBranch`: it either returns normally,
exits the process with the two-line error message, or panics with an
out-of-range index (Go slice/index panic). -/
inductive EnsureParentResult where
  | ok
  | errorExit (message1 : String) (message2 : String)
  | indexOutOfRange
deriving DecidableEq, Repr

/-- Embeds `ensureParentBranchIsMainBranch` (ship.go lines 85-95).
`ancestors[1:]` panics when `ancestors` is empty and the subsequent `[0]`
panics when `ancestors[1:]` is empty; both are `indexOutOfRange`. -/
def ensureParentBranchIsMainBranch (env : GitEnv) (branchName : String) :
    EnsureParentResult :=
  if env.GetParentBranch branchName == env.GetMainBranch then
    .ok
  else
    match env.GetAncestorBranches branchName with
    | [] => .indexOutOfRange
    | _ :: ancestorsWithoutMain =>
      match ancestorsWithoutMain with
      | [] => .indexOutOfRange
      | oldestAncestor :: _ =>
        .errorExit
          ("Shipping this branch would ship " ++
            String.intercalate ", " ancestorsWithoutMain ++ " as well.")
          ("Please ship \"" ++ oldestAncestor ++ "\" first.")

/-- Embeds `checkShipPreconditions` (ship.go lines 63-83).  The `git.Ensure*`
helpers and `util.ExitWithErrorMessage` terminate the process on failure,
modelled as `Except.error`; `script.Fetch()` and the interactive
`prompt.EnsureKnowsParentBranches` mutate no state this model tracks.  The
error text of `git.EnsureDoesNotHaveOpenChanges` and `git.EnsureHasBranch` is
outside the provided source; the strings the call sites pass are used. -/
def checkShipPreconditions (env : GitEnv) (args : List String) :
    Except String shipConfig :=
  let initialBranch := env.GetCurrentBranchName
  let branchToShip := match args with
    | [] => initialBranch
    | a :: _ => a
  if branchToShip == initialBranch && env.HasOpenChanges then
    .error "Did you mean to commit them before shipping?"
  else if branchToShip != initialBranch && !env.HasBranch branchToShip then
    .error ("There is no branch named \"" ++ branchToShip ++ "\"")
  else if !env.IsFeatureBranch branchToShip then
    .error "Only feature branches can be shipped."
  else
    match ensureParentBranchIsMainBranch env branchToShip with
    | .ok =>
      .ok { BranchToShip := branchToShip, InitialBranch := initialBranch,
            IsTargetBranchLocal := false, TargetBranch := "" }
    | .errorExit m1 m2 => .error (m1 ++ " " ++ m2)
    | .indexOutOfRange => .error "runtime error: index out of range"

/-- Embeds `getShipStepList` (ship.go lines 97-126).  `commitMessage` is the
package-level variable bound to the `--message` flag, passed explicitly.
Note that the child-branch lookup and the tracking-branch check read
`config.TargetBranch` exactly as the source does. -/
def getShipStepList (env : GitEnv) (commitMessage : String)
    (config : shipConfig) : StepList :=
  let isOffline := env.IsOffline
  let mainBranch := env.GetMainBranch
  let isShippingInitialBranch := config.BranchToShip == config.InitialBranch
  let result : StepList := {}
  let result := result.AppendList ⟨env.GetSyncBranchSteps mainBranch⟩
  let result := result.Append (.CheckoutBranchStep config.BranchToShip)
  let result := result.Append .MergeTrackingBranchStep
  let result := result.Append (.MergeBranchStep mainBranch)
  let result := result.Append (.EnsureHasShippableChangesStep config.BranchToShip)
  let result := result.Append (.CheckoutBranchStep mainBranch)
  let result := result.Append (.SquashMergeBranchStep config.BranchToShip commitMessage)
  let result :=
    if env.HasRemote "origin" && !isOffline then
      result.Append (.PushBranchStep mainBranch true)
    else result
  let childBranches := env.GetChildBranches config.TargetBranch
  let result :=
    if env.HasTrackingBranch config.TargetBranch &&
        childBranches.length == 0 && !isOffline then
      result.Append (.DeleteRemoteBranchStep config.BranchToShip true)
    else result
  let result := result.Append (.DeleteLocalBranchStep config.BranchToShip)
  let result := result.Append (.DeleteParentBranchStep config.BranchToShip)
  let result := childBranches.foldl
    (fun acc child => acc.Append (.SetParentBranchStep child mainBranch)) result
  let result := result.Append .DeleteAncestorBranchesStep
  let result :=
    if !isShippingInitialBranch then
      result.Append (.CheckoutBranchStep config.InitialBranch)
    else result
  result.Wrap { RunInGitRoot := true, StashOpenChanges := !isShippingInitialBranch }

/-- Modelled from the spec: the slice of repository state the engine's steps
read and mutate — the checked-out branch, each local and remote branch's
head commit, tracking-branch linkage, the branch hierarchy, and open
changes (spec 3, 6, 8).  Maps are total functions into `Option`. -/
structure RepoState where
  currentBranch : String
  branchHeads : String → Option String
  remoteHeads : String → Option String
  tracking : String → Option String
  parentOf : String → Option String
  openChanges : Bool
  stashedChanges : Bool

/-- The commit HEAD points at: the head of the checked-out branch. -/
def RepoState.headTarget (r : RepoState) : Option String :=
  r.branchHeads r.currentBranch

/-- Points the map `f` at key `k` to `v`, leaving every other key alone. -/
def updateFun (f : String → Option String) (k : String) (v : Option String) :
    String → Option String :=
  fun x => if x = k then v else f x

/-- Modelled from the spec: each step variant's mutation of the repository
(spec 4.1).  Merge-family steps move the checked-out branch's head to a fresh
commit; deletions clear the corresponding map entry; a tracking remote-branch
deletion also severs the tracking linkage.  `DeleteAncestorBranchesStep`
clears cached ancestry metadata this state does not represent, so it is the
identity here; the directory-relocation steps touch no tracked field. -/
def Step.effect : Step → RepoState → RepoState
  | .CheckoutBranchStep b, r => { r with currentBranch := b }
  | .MergeTrackingBranchStep, r =>
    { r with branchHeads := (updateFun r.branchHeads r.currentBranch
        (some ("merge-tracking-into-" ++ r.currentBranch))) }
  | .MergeBranchStep b, r =>
    { r with branchHeads := (updateFun r.branchHeads r.currentBranch
        (some ("merge-" ++ b ++ "-into-" ++ r.currentBranch))) }
  | .EnsureHasShippableChangesStep _, r => r
  | .SquashMergeBranchStep b _, r =>
    { r with branchHeads := (updateFun r.branchHeads r.currentBranch
        (some ("squash-" ++ b ++ "-into-" ++ r.currentBranch))) }
  | .PushBranchStep b _, r =>
    { r with remoteHeads := updateFun r.remoteHeads b (r.branchHeads b) }
  | .ResetRemoteBranchStep b sha, r =>
    { r with remoteHeads := updateFun r.remoteHeads b (some sha) }
  | .DeleteRemoteBranchStep b t, r =>
    { r with remoteHeads := updateFun r.remoteHeads b none,
             tracking := if t then updateFun r.tracking b none else r.tracking }
  | .DeleteLocalBranchStep b, r =>
    { r with branchHeads := updateFun r.branchHeads b none }
  | .DeleteParentBranchStep b, r =>
    { r with parentOf := updateFun r.parentOf b none }
  | .SetParentBranchStep b p, r =>
    { r with parentOf := updateFun r.parentOf b (some p) }
  | .DeleteAncestorBranchesStep, r => r
  | .StashOpenChangesStep, r =>
    { r with openChanges := false, stashedChanges := r.openChanges }
  | .RestoreOpenChangesStep, r =>
    { r with openChanges := r.stashedChanges, stashedChanges := false }
  | .ChangeToGitRootStep, r => r
  | .RestoreDirectoryStep, r => r

/-- Modelled from the spec: `create-undo-step` computed against the pre-run
state (spec 4.1, 4.4): checkout inverts to a checkout of the previously
checked-out branch; an undoable push inverts to a push of the pre-push remote
ref; hierarchy mutations invert to restoring the previous parent entry;
irreversible variants (branch deletions, merges resolved in place,
checks, setup/teardown) have no undo step. -/
def Step.createUndoStep : Step → RepoState → Option Step
  | .CheckoutBranchStep _, r => some (.CheckoutBranchStep r.currentBranch)
  | .PushBranchStep b undoable, r =>
    if undoable then
      match r.remoteHeads b with
      | some sha => some (.ResetRemoteBranchStep b sha)
      | none => some (.DeleteRemoteBranchStep b false)
    else none
  | .ResetRemoteBranchStep b _, r =>
    (match r.remoteHeads b with
     | some sha => some (.ResetRemoteBranchStep b sha)
     | none => some (.DeleteRemoteBranchStep b false))
  | .SetParentBranchStep b _, r =>
    (match r.parentOf b with
     | some old => some (.SetParentBranchStep b old)
     | none => some (.DeleteParentBranchStep b))
  | .DeleteParentBranchStep b, r =>
    (match r.parentOf b with
     | some old => some (.SetParentBranchStep b old)
     | none => none)
  | _, _ => none

/-- Modelled from the spec: the step variants whose effect the engine can
reverse (spec 4.1, 8): checkout, undoable push, remote-ref reset, and the
branch-hierarchy mutations.  Deletions are documented as irreversible. -/
def Step.reversible : Step → Bool
  | .CheckoutBranchStep _ => true
  | .PushBranchStep _ undoable => undoable
  | .ResetRemoteBranchStep _ _ => true
  | .SetParentBranchStep _ _ => true
  | .DeleteParentBranchStep _ => true
  | _ => false

/-- Modelled from the spec: the tri-state outcome of a step's underlying
repository mutation (spec 4.1). -/
inductive StepOutcome where
  | completed
  | conflict
  | failed
deriving DecidableEq, Repr

/-- Modelled from the spec: result of driving a step list — ran to
completion, suspended on a conflict (with the remaining steps and the
accumulated undo and abort lists), or halted on a hard failure (spec 4.4).
Every constructor carries the trace of steps that were invoked. -/
inductive ExecResult where
  | completed (repo : RepoState) (undoList : List Step) (invoked : List Step)
  | conflicted (repo : RepoState) (remaining undoList abortList invoked : List Step)
  | haltedHard (repo : RepoState) (invoked : List Step)

/-- Final repository state of an execution. -/
def ExecResult.finalRepo : ExecResult → RepoState
  | .completed r _ _ => r
  | .conflicted r _ _ _ _ => r
  | .haltedHard r _ => r

/-- Accumulated undo list of an execution. -/
def ExecResult.undoList : ExecResult → List Step
  | .completed _ u _ => u
  | .conflicted _ _ u _ _ => u
  | .haltedHard _ _ => []

/-- Steps the execution actually invoked, in invocation order. -/
def ExecResult.invoked : ExecResult → List Step
  | .completed _ _ i => i
  | .conflicted _ _ _ _ i => i
  | .haltedHard _ i => i

/-- Steps left unrun at a conflict suspension. -/
def ExecResult.remaining : ExecResult → List Step
  | .conflicted _ rem _ _ _ => rem
  | _ => []

/-- Whether the execution suspended on a conflict. -/
def ExecResult.isConflicted : ExecResult → Bool
  | .conflicted _ _ _ _ _ => true
  | _ => false

/-- Whether the execution ran every step to completion. -/
def ExecResult.isCompleted : ExecResult → Bool
  | .completed _ _ _ => true
  | _ => false

/-- Modelled from the spec: the Running state of the runner (spec 4.4).
Steps execute strictly in order; before each step its undo step (computed
from the pre-step state) is pushed onto the undo accumulator; on `completed`
the runner advances, on `conflict` it suspends with the remaining steps, on
`failed` it halts.  `outcomeOf` is the opaque per-step tri-state outcome of
the underlying version-control operation (spec 6); the abort list at a
suspension is the best-effort reversal of what already ran. -/
def execSteps (outcomeOf : Step → RepoState → StepOutcome) :
    List Step → RepoState → List Step → List Step → ExecResult
  | [], repo, undoAcc, inv => .completed repo undoAcc inv
  | s :: rest, repo, undoAcc, inv =>
    let undoAcc' := match s.createUndoStep repo with
      | some u => u :: undoAcc
      | none => undoAcc
    match outcomeOf s repo with
    | .completed => execSteps outcomeOf rest (s.effect repo) undoAcc' (inv ++ [s])
    | .conflict => .conflicted repo rest undoAcc' undoAcc' (inv ++ [s])
    | .failed => .haltedHard repo (inv ++ [s])

/-- Applies an undo (or abort) list front to back; the list is accumulated by
pushing, so its head is the undo of the last-applied step — running it front
to back is exactly reverse-of-accumulation order (spec 4.4). -/
def applyUndoList : List Step → RepoState → RepoState
  | [], r => r
  | u :: rest, r => applyUndoList rest (u.effect r)

/-- Modelled from the spec: the persisted snapshot of an in-flight or
just-failed workflow (spec 3). -/
structure RunState where
  Command : String
  InitialBranch : String
  RunStepList : List Step
  UndoStepList : List Step
  AbortStepList : List Step
deriving DecidableEq, Repr

/-- The run options the command layer hands to `steps.Run` (ship.go lines
44-56, spec 6).  The step-list generator is a zero-argument closure; the
ship generator can exit the process during precondition checks, modelled as
`Except.error`. -/
structure RunOptions where
  CanSkip : Unit → Bool
  Command : String
  IsAbort : Bool
  IsContinue : Bool
  IsSkip : Bool
  IsUndo : Bool
  SkipMessageGenerator : Unit → String
  StepListGenerator : Unit → Except String StepList

/-- Modelled from the spec: the world a runner invocation acts on — the
repository plus the single per-repository persisted run-state slot
(spec 3, 5). -/
structure World where
  repo : RepoState
  savedState : Option RunState

/-- Modelled from the spec: terminal outcome of one runner invocation
(spec 4.4, 6, 7). -/
inductive RunOutcome where
  | completed
  | suspended
  | aborted
  | undone
  | protocolError (message : String)
  | haltedHard
  | exitedEarly (message : String)
deriving DecidableEq, Repr

/-- Result of one runner invocation: the resulting world, the outcome, and
the trace of steps invoked during this invocation. -/
structure RunResult where
  world : World
  outcome : RunOutcome
  invoked : List Step

/-- Translates an execution result into a runner result: a completed run
persists its undo list (so a later `undo` can consume it, spec 3), a
conflict suspension persists the remaining run list with the undo and abort
lists, and a hard failure persists nothing (spec 4.4). -/
def finishExec (command : String) (initialBranch : String) :
    ExecResult → RunResult
  | .completed repo undo inv =>
    ⟨⟨repo, some { Command := command, InitialBranch := initialBranch,
                   RunStepList := [], UndoStepList := undo,
                   AbortStepList := [] }⟩, .completed, inv⟩
  | .conflicted repo remaining undo abort inv =>
    ⟨⟨repo, some { Command := command, InitialBranch := initialBranch,
                   RunStepList := remaining, UndoStepList := undo,
                   AbortStepList := abort }⟩, .suspended, inv⟩
  | .haltedHard repo inv => ⟨⟨repo, none⟩, .haltedHard, inv⟩

/-- Modelled from the spec: the runner `steps.Run` (spec 4.4, 6, 7).
Abort consumes the pending state and runs its abort list best-effort; undo
requires a fully completed run (empty remaining run list) and consumes the
persisted undo list; continue validates the pending state's command, gates
`--skip` on the caller's skip-eligibility predicate before dropping anything,
then resumes the persisted run list; a fresh run refuses to start while any
run state exists, and only then invokes the lazily-supplied step-list
generator. -/
def Run (opts : RunOptions) (outcomeOf : Step → RepoState → StepOutcome)
    (w : World) : RunResult :=
  if opts.IsAbort then
    match w.savedState with
    | none => ⟨w, .protocolError "nothing to abort", []⟩
    | some st =>
      if st.Command = opts.Command then
        ⟨⟨applyUndoList st.AbortStepList w.repo, none⟩, .aborted, st.AbortStepList⟩
      else ⟨w, .protocolError "pending state belongs to another command", []⟩
  else if opts.IsUndo then
    match w.savedState with
    | none => ⟨w, .protocolError "nothing to undo", []⟩
    | some st =>
      if st.Command = opts.Command then
        if st.RunStepList = [] then
          ⟨⟨applyUndoList st.UndoStepList w.repo, none⟩, .undone, st.UndoStepList⟩
        else ⟨w, .protocolError "undo requires a completed run", []⟩
      else ⟨w, .protocolError "pending state belongs to another command", []⟩
  else if opts.IsContinue then
    match w.savedState with
    | none => ⟨w, .protocolError "nothing to continue", []⟩
    | some st =>
      if st.Command = opts.Command then
        if opts.IsSkip && !opts.CanSkip () then
          ⟨w, .protocolError "cannot skip", []⟩
        else
          let toRun := if opts.IsSkip then st.RunStepList.drop 1 else st.RunStepList
          finishExec opts.Command st.InitialBranch
            (execSteps outcomeOf toRun w.repo st.UndoStepList [])
      else ⟨w, .protocolError "pending state belongs to another command", []⟩
  else
    match w.savedState with
    | some _ => ⟨w, .protocolError "pending run state exists", []⟩
    | none =>
      match opts.StepListGenerator () with
      | .error e => ⟨w, .exitedEarly e, []⟩
      | .ok list =>
        finishExec opts.Command w.repo.currentBranch
          (execSteps outcomeOf list.steps w.repo [] [])

/-- Embeds the `steps.RunOptions` literal the ship command passes to
`steps.Run` (ship.go lines 44-56): skipping is unconditionally forbidden,
`IsSkip` is hard-coded false, and the step-list generator is a zero-argument
closure running the precondition checks and then `getShipStepList`. -/
def shipRunOptions (env : GitEnv) (commitMessage : String) (args : List String)
    (abortFlag continueFlag undoFlag : Bool) : RunOptions where
  CanSkip := fun _ => false
  Command := "ship"
  IsAbort := abortFlag
  IsContinue := continueFlag
  IsSkip := false
  IsUndo := undoFlag
  SkipMessageGenerator := fun _ => ""
  StepListGenerator := fun _ =>
    (checkShipPreconditions env args).map (getShipStepList env commitMessage)

/-! ### Concrete fixtures used to instantiate the theorems -/

/-- A concrete repository environment: current branch `feature`, a direct
child of `main`, tracked on the remote, online, no open changes. -/
def envA : GitEnv where
  IsOffline := false
  GetMainBranch := "main"
  HasRemote := fun _ => true
  GetChildBranches := fun _ => []
  HasTrackingBranch := fun b => b == "feature"
  GetParentBranch := fun _ => "main"
  GetAncestorBranches := fun _ => ["main"]
  GetCurrentBranchName := "feature"
  HasOpenChanges := false
  HasBranch := fun _ => true
  IsFeatureBranch := fun _ => true
  GetSyncBranchSteps := fun b => [Step.CheckoutBranchStep b, Step.MergeTrackingBranchStep]

/-- Like `envA`, but the shipped branch's parent is not the main branch and
its recorded ancestor list has a single element. -/
def envB : GitEnv :=
  { envA with GetParentBranch := fun _ => "other",
              GetAncestorBranches := fun _ => ["main"] }

/-- A concrete repository state. -/
def repoA : RepoState where
  currentBranch := "feature"
  branchHeads := fun _ => some "sha0"
  remoteHeads := fun _ => none
  tracking := fun _ => none
  parentOf := fun _ => none
  openChanges := false
  stashedChanges := false

/-- A pending run state of the ship command. -/
def stA : RunState where
  Command := "ship"
  InitialBranch := "feature"
  RunStepList := []
  UndoStepList := []
  AbortStepList := []

/-- A world in which a run state is already pending. -/
def worldPending : World := ⟨repoA, some stA⟩

/-- Step outcomes where every step completes. -/
def oracleAllComplete : Step → RepoState → StepOutcome := fun _ _ => .completed

/-- Step outcomes where merging a branch conflicts and everything else
completes. -/
def oracleMergeConflicts : Step → RepoState → StepOutcome := fun s _ =>
  match s with
  | .MergeBranchStep _ => .conflict
  | _ => .completed

/-- Run options of a `--continue --skip` request whose skip-eligibility
predicate forbids skipping, as the ship command's options do. -/
def optsSkip : RunOptions where
  CanSkip := fun _ => false
  Command := "ship"
  IsAbort := false
  IsContinue := true
  IsSkip := true
  IsUndo := false
  SkipMessageGenerator := fun _ => ""
  StepListGenerator := fun _ => .ok ⟨[]⟩

/-- The remaining steps once the ship scenario's merge of `main` conflicts. -/
def shipRemainingSteps : List Step :=
  [Step.EnsureHasShippableChangesStep "feature", Step.CheckoutBranchStep "main",
   Step.SquashMergeBranchStep "feature" "msg", Step.PushBranchStep "main" true,
   Step.DeleteLocalBranchStep "feature", Step.DeleteParentBranchStep "feature",
   Step.DeleteAncestorBranchesStep, Step.RestoreDirectoryStep]

/-- A fresh ship run against `envA` in which the merge of `main` conflicts. -/
def shipFreshRun : RunResult :=
  Run (shipRunOptions envA "msg" [] false false false) oracleMergeConflicts
    ⟨repoA, none⟩

/-- The subsequent `--continue` invocation of the same ship run. -/
def shipContinueRun : RunResult :=
  Run (shipRunOptions envA "msg" [] false true false) oracleMergeConflicts
    shipFreshRun.world

/-- Like `envA`, except the branch `feature` has the child branch `kid` and
every branch has a tracking branch. -/
def envC10 : GitEnv :=
  { envA with GetChildBranches := fun b => if b == "feature" then ["kid"] else [],
              HasTrackingBranch := fun _ => true }

/-- The configuration `checkShipPreconditions` builds when shipping `feature`
from `main`: the undeclared `TargetBranch` field keeps its zero value. -/
def configC10 : shipConfig :=
  { BranchToShip := "feature", InitialBranch := "main",
    IsTargetBranchLocal := false, TargetBranch := "" }

/-- Like `envA`, except every branch (including the empty string) has the
child branch `kid`. -/
def envC10w : GitEnv :=
  { envA with GetChildBranches := fun _ => ["kid"] }

/-- A list consisting solely of reversible step variants. -/
def stepsC8 : List Step :=
  [Step.CheckoutBranchStep "other", Step.SetParentBranchStep "kid" "main",
   Step.PushBranchStep "main" true, Step.DeleteParentBranchStep "kid",
   Step.CheckoutBranchStep "main"]

/-! ### Helper lemmas -/

theorem updateFun_self (f : String → Option String) (k : String)
    (v : Option String) (h : f k = v) : updateFun f k v = f := by
  funext x
  by_cases hx : x = k
  · subst hx; simp [updateFun, h]
  · simp [updateFun, hx]


theorem updateFun_cancel (f : String → Option String) (k : String)
    (v w : Option String) (h : f k = v) :
    updateFun (updateFun f k w) k v = f := by
  funext x
  by_cases hx : x = k
  · subst hx; simp [updateFun, h]
  · simp [updateFun, hx]

theorem foldl_setParent_steps (children : List String) (acc : StepList)
    (main : String) :
    (children.foldl
        (fun a c => a.Append (.SetParentBranchStep c main)) acc).steps =
      acc.steps ++ children.map (fun c => Step.SetParentBranchStep c main) := by
  induction children generalizing acc with
  | nil => simp
  | cons c rest ih =>
    rw [List.foldl_cons, ih]
    simp [StepList.Append]

theorem execSteps_conflicted_split (f : Step → RepoState → StepOutcome)
    (l : List Step) :
    ∀ (repo : RepoState) (u inv0 : List Step),
      (execSteps f l repo u inv0).isConflicted = true →
      (execSteps f l repo u inv0).invoked ++ (execSteps f l repo u inv0).remaining =
        inv0 ++ l := by
  induction l with
  | nil =>
    intro repo u inv0 h
    simp [execSteps, ExecResult.isConflicted] at h
  | cons s rest ih =>
    intro repo u inv0 h
    rcases houtcome : f s repo with _ | _ | _
    · have h' := h
      simp only [execSteps, houtcome] at h' ⊢
      have := ih (s.effect repo) _ (inv0 ++ [s]) h'
      simpa [List.append_assoc] using this
    · simp [execSteps, houtcome, ExecResult.invoked, ExecResult.remaining]
    · simp [execSteps, houtcome, ExecResult.isConflicted] at h

theorem foldl_setParent_steps2 (children : List String) (acc : StepList)
    (main : String) :
    (List.foldl
        (fun (a : StepList) c =>
          (⟨a.steps ++ [Step.SetParentBranchStep c main]⟩ : StepList))
        acc children).steps =
      acc.steps ++ children.map (fun c => Step.SetParentBranchStep c main) := by
  induction children generalizing acc with
  | nil => simp
  | cons c rest ih =>
    rw [List.foldl_cons, ih]
    simp

theorem reversible_step_inverts (s : Step) (r : RepoState)
    (h : s.reversible = true) :
    (match s.createUndoStep r with
     | some u => u.effect (s.effect r) = r
     | none => s.effect r = r) := by
  cases s with
  | CheckoutBranchStep b =>
    simp only [Step.createUndoStep, Step.effect]
  | PushBranchStep b undoable =>
    have hu : undoable = true := by simpa [Step.reversible] using h
    subst hu
    rcases hrem : r.remoteHeads b with _ | sha
    · simp only [Step.createUndoStep, Step.effect, if_true, hrem]
      rw [updateFun_cancel _ _ _ _ hrem]
      simp
    · simp only [Step.createUndoStep, Step.effect, if_true, hrem]
      rw [updateFun_cancel _ _ _ _ hrem]
  | ResetRemoteBranchStep b sha =>
    rcases hrem : r.remoteHeads b with _ | old
    · simp only [Step.createUndoStep, Step.effect, hrem]
      rw [updateFun_cancel _ _ _ _ hrem]
      simp
    · simp only [Step.createUndoStep, Step.effect, hrem]
      rw [updateFun_cancel _ _ _ _ hrem]
  | SetParentBranchStep b p =>
    rcases hp : r.parentOf b with _ | old <;>
      simp only [Step.createUndoStep, Step.effect, hp] <;>
      rw [updateFun_cancel _ _ _ _ hp]
  | DeleteParentBranchStep b =>
    rcases hp : r.parentOf b with _ | old
    · simp only [Step.createUndoStep, Step.effect, hp]
      rw [updateFun_self _ _ _ hp]
    · simp only [Step.createUndoStep, Step.effect, hp]
      rw [updateFun_cancel _ _ _ _ hp]
  | MergeTrackingBranchStep => simp [Step.reversible] at h
  | MergeBranchStep b => simp [Step.reversible] at h
  | EnsureHasShippableChangesStep b => simp [Step.reversible] at h
  | SquashMergeBranchStep b m => simp [Step.reversible] at h
  | DeleteRemoteBranchStep b t => simp [Step.reversible] at h
  | DeleteLocalBranchStep b => simp [Step.reversible] at h
  | DeleteAncestorBranchesStep => simp [Step.reversible] at h
  | StashOpenChangesStep => simp [Step.reversible] at h
  | RestoreOpenChangesStep => simp [Step.reversible] at h
  | ChangeToGitRootStep => simp [Step.reversible] at h
  | RestoreDirectoryStep => simp [Step.reversible] at h

theorem execSteps_undo_roundtrip (l : List Step) :
    ∀ (repo : RepoState) (undoAcc inv : List Step),
      (∀ s ∈ l, s.reversible = true) →
      applyUndoList (execSteps oracleAllComplete l repo undoAcc inv).undoList
          (execSteps oracleAllComplete l repo undoAcc inv).finalRepo =
        applyUndoList undoAcc repo := by
  induction l with
  | nil => intro repo u i _; rfl
  | cons s rest ih =>
    intro repo u i h
    have hs : s.reversible = true := h s (by simp)
    have hrest : ∀ t ∈ rest, t.reversible = true := fun t ht => h t (by simp [ht])
    have hinv := reversible_step_inverts s repo hs
    rcases hu : s.createUndoStep repo with _ | ustep
    · rw [hu] at hinv
      simp only [execSteps, oracleAllComplete, hu]
      rw [ih (s.effect repo) u (i ++ [s]) hrest, hinv]
    · rw [hu] at hinv
      simp only [execSteps, oracleAllComplete, hu]
      rw [ih (s.effect repo) (ustep :: u) (i ++ [s]) hrest]
      show applyUndoList u (ustep.effect (s.effect repo)) = applyUndoList u repo
      rw [hinv]

theorem getShipStepList_steps (env : GitEnv) (m : String) (config : shipConfig) :
    (getShipStepList env m config).steps =
      wrapSetupSteps
          { RunInGitRoot := true,
            StashOpenChanges := !(config.BranchToShip == config.InitialBranch) } ++
        env.GetSyncBranchSteps env.GetMainBranch ++
        [Step.CheckoutBranchStep config.BranchToShip,
         Step.MergeTrackingBranchStep,
         Step.MergeBranchStep env.GetMainBranch,
         Step.EnsureHasShippableChangesStep config.BranchToShip,
         Step.CheckoutBranchStep env.GetMainBranch,
         Step.SquashMergeBranchStep config.BranchToShip m] ++
        (if env.HasRemote "origin" && !env.IsOffline then
          [Step.PushBranchStep env.GetMainBranch true] else []) ++
        (if env.HasTrackingBranch config.TargetBranch &&
            (env.GetChildBranches config.TargetBranch).length == 0 &&
            !env.IsOffline then
          [Step.DeleteRemoteBranchStep config.BranchToShip true] else []) ++
        [Step.DeleteLocalBranchStep config.BranchToShip,
         Step.DeleteParentBranchStep config.BranchToShip] ++
        (env.GetChildBranches config.TargetBranch).map
          (fun c => Step.SetParentBranchStep c env.GetMainBranch) ++
        [Step.DeleteAncestorBranchesStep] ++
        (if !(config.BranchToShip == config.InitialBranch) then
          [Step.CheckoutBranchStep config.InitialBranch] else []) ++
        wrapTeardownSteps
          { RunInGitRoot := true,
            StashOpenChanges := !(config.BranchToShip == config.InitialBranch) } := by
  unfold getShipStepList
  cases h1 : env.HasRemote "origin" && !env.IsOffline <;>
    cases h2 : env.HasTrackingBranch config.TargetBranch &&
      (env.GetChildBranches config.TargetBranch).length == 0 && !env.IsOffline <;>
    cases h3 : config.BranchToShip == config.InitialBranch <;>
    simp [StepList.Wrap, StepList.Append, StepList.AppendList,
      foldl_setParent_steps, foldl_setParent_steps2, h1, h2, h3]

/-! ### Claims -/

/-- C2: every ship step list is the `Wrap` of some core list with
stash-open-changes set exactly when the shipped branch differs from the
initial branch, and every wrapped list has the setup steps at index 0 and
the teardown steps at the tail regardless of the domain steps in between. -/
theorem C2_ship_wrap_stash_iff (env : GitEnv) (m : String) (config : shipConfig) :
    (∃ core : StepList,
        getShipStepList env m config =
          core.Wrap { RunInGitRoot := true,
                      StashOpenChanges := !(config.BranchToShip == config.InitialBranch) }) ∧
    ((!(config.BranchToShip == config.InitialBranch)) = true ↔
        config.BranchToShip ≠ config.InitialBranch) ∧
    (∀ (l : StepList) (o : WrapOptions),
        (l.Wrap o).steps = wrapSetupSteps o ++ l.steps ++ wrapTeardownSteps o) :=
  ⟨⟨_, rfl⟩, by simp, fun _ _ => rfl⟩

/-- C9: when the shipped branch's parent is not the main branch,
`ensureParentBranchIsMainBranch` reaches its error-message exit only if the
ancestor list has at least two elements; with fewer than two it slices from
index 1 and indexes element 0, an out-of-range access. -/
theorem C9_ensureParent_out_of_range (env : GitEnv) (b : String)
    (hne : env.GetParentBranch b ≠ env.GetMainBranch) :
    ((env.GetAncestorBranches b).length < 2 →
      ensureParentBranchIsMainBranch env b = .indexOutOfRange) ∧
    (∀ m1 m2, ensureParentBranchIsMainBranch env b = .errorExit m1 m2 →
      2 ≤ (env.GetAncestorBranches b).length) := by
  have hbeq : (env.GetParentBranch b == env.GetMainBranch) = false := by
    simpa using hne
  constructor
  · intro hlen
    unfold ensureParentBranchIsMainBranch
    rw [hbeq]
    simp only [Bool.false_eq_true, if_false]
    rcases hanc : env.GetAncestorBranches b with _ | ⟨a, rest⟩
    · rfl
    · rcases rest with _ | ⟨c, r2⟩
      · rfl
      · rw [hanc] at hlen
        simp only [List.length_cons] at hlen
        omega
  · intro m1 m2 heq
    unfold ensureParentBranchIsMainBranch at heq
    rw [hbeq] at heq
    simp only [Bool.false_eq_true, if_false] at heq
    rcases hanc : env.GetAncestorBranches b with _ | ⟨a, rest⟩
    · rw [hanc] at heq; exact absurd heq (by simp)
    · rcases rest with _ | ⟨c, r2⟩
      · rw [hanc] at heq; exact absurd heq (by simp)
      · simp

/-- Witness for C9 at a concrete environment whose ancestor list is
`["main"]`. -/
theorem C9_witness :
    ensureParentBranchIsMainBranch envB "feature" = .indexOutOfRange :=
  (C9_ensureParent_out_of_range envB "feature" (by decide)).1 (by decide)

/-- C6: for any step list executed by the runner, if a step reports a
conflict then the suspension's invocation trace together with the unrun
remainder partitions the list — no step after the conflicting one has been
invoked. -/
theorem C6_conflict_stops_invocation (f : Step → RepoState → StepOutcome)
    (l : List Step) (repo : RepoState)
    (h : (execSteps f l repo [] []).isConflicted = true) :
    l = (execSteps f l repo [] []).invoked ++ (execSteps f l repo [] []).remaining := by
  have := execSteps_conflicted_split f l repo [] [] h
  simpa using this.symm

/-- Witness for C6: a three-step list whose middle merge step conflicts. -/
theorem C6_witness :
    (execSteps oracleMergeConflicts
        [Step.CheckoutBranchStep "a", Step.MergeBranchStep "main",
         Step.CheckoutBranchStep "b"] repoA [] []).isConflicted = true ∧
    [Step.CheckoutBranchStep "a", Step.MergeBranchStep "main",
        Step.CheckoutBranchStep "b"] =
      (execSteps oracleMergeConflicts
        [Step.CheckoutBranchStep "a", Step.MergeBranchStep "main",
         Step.CheckoutBranchStep "b"] repoA [] []).invoked ++
      (execSteps oracleMergeConflicts
        [Step.CheckoutBranchStep "a", Step.MergeBranchStep "main",
         Step.CheckoutBranchStep "b"] repoA [] []).remaining :=
  ⟨by decide, C6_conflict_stops_invocation oracleMergeConflicts _ repoA (by decide)⟩

/-- C7: a fresh top-level run (no continue/abort/undo flag) while a run state
already exists fails with a protocol error and mutates neither the
repository nor the stored state. -/
theorem C7_fresh_run_blocked (opts : RunOptions)
    (f : Step → RepoState → StepOutcome) (w : World) (st : RunState)
    (ha : opts.IsAbort = false) (hc : opts.IsContinue = false)
    (hu : opts.IsUndo = false) (hs : w.savedState = some st) :
    Run opts f w = ⟨w, .protocolError "pending run state exists", []⟩ := by
  simp [Run, ha, hc, hu, hs]

/-- Witness for C7: a flagless ship invocation against a world with a
pending run state. -/
theorem C7_witness :
    Run (shipRunOptions envA "msg" [] false false false) oracleAllComplete
        worldPending =
      ⟨worldPending, .protocolError "pending run state exists", []⟩ :=
  C7_fresh_run_blocked _ _ _ stA rfl rfl rfl rfl

/-- C4: the runner's result is independent of the supplied step-list
generator whenever continue, abort, or undo is requested — the zero-argument
closure is never consulted there — and the ship command supplies exactly the
closure running its precondition checks and step-list construction. -/
theorem C4_generator_laziness :
    (∀ (opts : RunOptions) (g : Unit → Except String StepList)
        (f : Step → RepoState → StepOutcome) (w : World),
      opts.IsAbort = true ∨ opts.IsContinue = true ∨ opts.IsUndo = true →
      Run { opts with StepListGenerator := g } f w = Run opts f w) ∧
    (∀ (env : GitEnv) (m : String) (args : List String) (a c u : Bool),
      (shipRunOptions env m args a c u).StepListGenerator =
        fun _ => (checkShipPreconditions env args).map (getShipStepList env m)) := by
  constructor
  · intro opts g f w h
    cases hA : opts.IsAbort <;> cases hU : opts.IsUndo <;>
      cases hC : opts.IsContinue <;> simp_all [Run]
  · intro env m args a c u
    rfl

/-- Witness for C4: two different generators give the same runner result on
a continue request. -/
theorem C4_witness :
    Run { shipRunOptions envA "msg" [] false true false with
          StepListGenerator := fun _ => .ok ⟨[]⟩ } oracleAllComplete
        worldPending =
      Run (shipRunOptions envA "msg" [] false true false) oracleAllComplete
        worldPending :=
  C4_generator_laziness.1 (shipRunOptions envA "msg" [] false true false)
    (fun _ => .ok ⟨[]⟩) oracleAllComplete worldPending (Or.inr (Or.inl rfl))

/-- C3: the ship command's skip-eligibility predicate returns false on every
input, and the runner rejects a `--continue --skip` request whose predicate
returns false with a protocol error, leaving the stored run-list untouched. -/
theorem C3_ship_skip_rejected :
    (∀ (env : GitEnv) (m : String) (args : List String) (a c u : Bool) (x : Unit),
      (shipRunOptions env m args a c u).CanSkip x = false) ∧
    (∀ (opts : RunOptions) (f : Step → RepoState → StepOutcome)
        (w : World) (st : RunState),
      opts.IsAbort = false → opts.IsUndo = false → opts.IsContinue = true →
      opts.IsSkip = true → opts.CanSkip () = false →
      w.savedState = some st → st.Command = opts.Command →
      Run opts f w = ⟨w, .protocolError "cannot skip", []⟩) := by
  constructor
  · intro env m args a c u x
    rfl
  · intro opts f w st ha hu hc hsk hcs hw hcmd
    simp [Run, ha, hu, hc, hsk, hcs, hw, hcmd]

/-- Witness for C3: the ship options forbid skipping, and a concrete
`--continue --skip` request against a pending ship state is rejected with
the world unchanged. -/
theorem C3_witness :
    (shipRunOptions envA "msg" [] false true false).CanSkip () = false ∧
    Run optsSkip oracleAllComplete worldPending =
      ⟨worldPending, .protocolError "cannot skip", []⟩ :=
  ⟨C3_ship_skip_rejected.1 envA "msg" [] false true false (),
   C3_ship_skip_rejected.2 optsSkip oracleAllComplete worldPending stA
     rfl rfl rfl rfl rfl rfl rfl⟩

/-- C8: running a step list composed solely of reversible step variants to
completion and then applying the accumulated undo list (last-applied step
undone first) restores the checked-out branch name, the HEAD target, and the
tracking-branch linkage to their pre-run values. -/
theorem C8_undo_round_trip (l : List Step) (repo : RepoState)
    (h : ∀ s ∈ l, s.reversible = true) :
    (applyUndoList (execSteps oracleAllComplete l repo [] []).undoList
        (execSteps oracleAllComplete l repo [] []).finalRepo).currentBranch =
      repo.currentBranch ∧
    (applyUndoList (execSteps oracleAllComplete l repo [] []).undoList
        (execSteps oracleAllComplete l repo [] []).finalRepo).headTarget =
      repo.headTarget ∧
    (∀ b, (applyUndoList (execSteps oracleAllComplete l repo [] []).undoList
        (execSteps oracleAllComplete l repo [] []).finalRepo).tracking b =
      repo.tracking b) := by
  have hrt := execSteps_undo_roundtrip l repo [] [] h
  rw [show applyUndoList [] repo = repo from rfl] at hrt
  rw [hrt]
  exact ⟨rfl, rfl, fun _ => rfl⟩

/-- Witness for C8: a five-step reversible list run from `repoA`. -/
theorem C8_witness :
    (∀ s ∈ stepsC8, s.reversible = true) ∧
    (applyUndoList (execSteps oracleAllComplete stepsC8 repoA [] []).undoList
        (execSteps oracleAllComplete stepsC8 repoA [] []).finalRepo).currentBranch =
      repoA.currentBranch :=
  ⟨by decide, (C8_undo_round_trip stepsC8 repoA (by decide)).1⟩

/-- C5: in every ship plan the ensure-has-shippable-changes step immediately
follows the merge of the main branch; concretely, when that merge conflicts,
the persisted run state's run-list begins at ensure-shippable-changes, and
the subsequent continue invocation invokes exactly those remaining steps,
never re-running the sync, checkout, merge-tracking, or merge steps. -/
theorem C5_conflict_then_continue :
    (∀ (env : GitEnv) (m : String) (config : shipConfig),
      ∃ pre post : List Step,
        (getShipStepList env m config).steps =
          pre ++ [Step.MergeBranchStep env.GetMainBranch,
                  Step.EnsureHasShippableChangesStep config.BranchToShip] ++ post) ∧
    shipFreshRun.outcome = .suspended ∧
    shipFreshRun.world.savedState.map RunState.RunStepList = some shipRemainingSteps ∧
    shipRemainingSteps.head? = some (Step.EnsureHasShippableChangesStep "feature") ∧
    shipContinueRun.outcome = .completed ∧
    shipContinueRun.invoked = shipRemainingSteps ∧
    Step.MergeBranchStep "main" ∉ shipContinueRun.invoked ∧
    Step.CheckoutBranchStep "feature" ∉ shipContinueRun.invoked ∧
    Step.MergeTrackingBranchStep ∉ shipContinueRun.invoked := by
  constructor
  · intro env m config
    refine ⟨wrapSetupSteps
        { RunInGitRoot := true,
          StashOpenChanges := !(config.BranchToShip == config.InitialBranch) } ++
        env.GetSyncBranchSteps env.GetMainBranch ++
        [Step.CheckoutBranchStep config.BranchToShip, Step.MergeTrackingBranchStep],
      [Step.CheckoutBranchStep env.GetMainBranch,
       Step.SquashMergeBranchStep config.BranchToShip m] ++
        (if env.HasRemote "origin" && !env.IsOffline then
          [Step.PushBranchStep env.GetMainBranch true] else []) ++
        (if env.HasTrackingBranch config.TargetBranch &&
            (env.GetChildBranches config.TargetBranch).length == 0 &&
            !env.IsOffline then
          [Step.DeleteRemoteBranchStep config.BranchToShip true] else []) ++
        [Step.DeleteLocalBranchStep config.BranchToShip,
         Step.DeleteParentBranchStep config.BranchToShip] ++
        (env.GetChildBranches config.TargetBranch).map
          (fun c => Step.SetParentBranchStep c env.GetMainBranch) ++
        [Step.DeleteAncestorBranchesStep] ++
        (if !(config.BranchToShip == config.InitialBranch) then
          [Step.CheckoutBranchStep config.InitialBranch] else []) ++
        wrapTeardownSteps
          { RunInGitRoot := true,
            StashOpenChanges := !(config.BranchToShip == config.InitialBranch) }, ?_⟩
    rw [getShipStepList_steps]
    simp
  · decide

/-- C1 (failing input): shipping the current branch `feature`, a direct child
of `main` with no child branches, a tracked remote, and online, the produced
plan omits `DeleteRemoteBranchStep(feature)` — the claimed sequence requires
it — because the tracking/children guard reads the undeclared
`config.TargetBranch` field (zero value `""`) instead of the shipped
branch. -/
theorem C1_target_branch_slip :
    (checkShipPreconditions envA []).toOption =
      some { BranchToShip := "feature", InitialBranch := "feature",
             IsTargetBranchLocal := false, TargetBranch := "" } ∧
    envA.HasTrackingBranch "feature" = true ∧
    envA.GetChildBranches "feature" = [] ∧
    envA.HasRemote "origin" = true ∧
    envA.IsOffline = false ∧
    Step.DeleteRemoteBranchStep "feature" true ∉
      (getShipStepList envA "msg"
        { BranchToShip := "feature", InitialBranch := "feature",
          IsTargetBranchLocal := false, TargetBranch := "" }).steps := by
  decide

/-- Counterexample for C10: the shipped branch `feature` has the child `kid`,
yet the plan contains `DeleteRemoteBranchStep(feature)` and contains no
`SetParentBranchStep(kid, main)` at all, because the child lookup and the
tracking check read the configuration's `TargetBranch` field (here `""`),
not the shipped branch. -/
theorem C10_counterexample :
    envC10.GetChildBranches "feature" = ["kid"] ∧
    Step.SetParentBranchStep "kid" "main" ∉
      (getShipStepList envC10 "msg" configC10).steps ∧
    Step.DeleteRemoteBranchStep "feature" true ∈
      (getShipStepList envC10 "msg" configC10).steps := by
  decide

/-- C10 (amended): for every ship invocation where the branch named by the
configuration's `TargetBranch` field has at least one child branch, and the
sync steps contain no remote-branch deletion, the generated step list omits
`DeleteRemoteBranchStep` entirely and contains, between
`DeleteParentBranchStep` of the shipped branch and
`DeleteAncestorBranchesStep`, one `SetParentBranchStep` per child of
`TargetBranch` in child-list order, setting that child's parent to the main
branch. -/
theorem C10_children_reparented (env : GitEnv) (m : String) (config : shipConfig)
    (hchild : env.GetChildBranches config.TargetBranch ≠ [])
    (hsync : ∀ b t, Step.DeleteRemoteBranchStep b t ∉
      env.GetSyncBranchSteps env.GetMainBranch) :
    (∀ b t, Step.DeleteRemoteBranchStep b t ∉ (getShipStepList env m config).steps) ∧
    (getShipStepList env m config).steps =
      wrapSetupSteps
          { RunInGitRoot := true,
            StashOpenChanges := !(config.BranchToShip == config.InitialBranch) } ++
        env.GetSyncBranchSteps env.GetMainBranch ++
        [Step.CheckoutBranchStep config.BranchToShip,
         Step.MergeTrackingBranchStep,
         Step.MergeBranchStep env.GetMainBranch,
         Step.EnsureHasShippableChangesStep config.BranchToShip,
         Step.CheckoutBranchStep env.GetMainBranch,
         Step.SquashMergeBranchStep config.BranchToShip m] ++
        (if env.HasRemote "origin" && !env.IsOffline then
          [Step.PushBranchStep env.GetMainBranch true] else []) ++
        [Step.DeleteLocalBranchStep config.BranchToShip,
         Step.DeleteParentBranchStep config.BranchToShip] ++
        (env.GetChildBranches config.TargetBranch).map
          (fun c => Step.SetParentBranchStep c env.GetMainBranch) ++
        [Step.DeleteAncestorBranchesStep] ++
        (if !(config.BranchToShip == config.InitialBranch) then
          [Step.CheckoutBranchStep config.InitialBranch] else []) ++
        wrapTeardownSteps
          { RunInGitRoot := true,
            StashOpenChanges := !(config.BranchToShip == config.InitialBranch) } := by
  have hlen : ((env.GetChildBranches config.TargetBranch).length == 0) = false := by
    simp [List.length_eq_zero, hchild]
  have h2 : (env.HasTrackingBranch config.TargetBranch &&
      (env.GetChildBranches config.TargetBranch).length == 0 &&
      !env.IsOffline) = false := by
    simp [hlen]
  constructor
  · intro b t hmem
    rw [getShipStepList_steps] at hmem
    cases hR : env.HasRemote "origin" && !env.IsOffline <;>
      cases hS : config.BranchToShip == config.InitialBranch <;>
      simp [h2, hR, hS, wrapSetupSteps, wrapTeardownSteps] at hmem <;>
      exact hsync b t hmem
  · rw [getShipStepList_steps]
    simp [h2]

/-- Witness for C10: a concrete environment in which `TargetBranch`'s child
list is `["kid"]`; the amended claim's delete-remote omission holds. -/
theorem C10_witness :
    envC10w.GetChildBranches configC10.TargetBranch ≠ [] ∧
    (∀ b t, Step.DeleteRemoteBranchStep b t ∉
      (getShipStepList envC10w "msg" configC10).steps) := by
  refine ⟨by decide, (C10_children_reparented envC10w "msg" configC10 (by decide) ?_).1⟩
  intro b t
  simp [envC10w, envA]

end GitTown
